import Mathlib

/-!
Verification of the cellular-automata sandbox simulation core.

This file gives a shallow embedding, in Lean 4, of the simulation engine
of the repository (the Web-Worker step code, the rule parser/formatter
utilities, and the `useSimulation` controller hook), and proves or refutes
the specification claims about them.

Conventions of the embedding:
* a JS `Uint8Array` buffer is a `List Nat`;
* a JS `number` used as an index or coordinate is an `Int`; the JS `%`
  operator (truncating remainder) is `Int.tmod`;
* reading `cells[index]` yields `some v` in bounds and `none` (JS
  `undefined`) out of bounds; `cells[index] === 1` becomes `= some 1`;
* writing `cells[index] = v` on a typed array is a silent no-op out of
  bounds, which `jsWrite` mirrors (`List.set` is already a no-op past the
  end);
* a function that may `throw` returns an `Option`.
-/

/-- The `CellRule` interface from `types.ts`: `birth` and `survival` are
JS `number[]` arrays. -/
structure CellRule where
  birth : List Nat
  survival : List Nat
deriving DecidableEq, Repr

/-- Reading `cells[i]` on a typed array: `some` value in bounds,
`none` (JS `undefined`) for a negative or too-large index. -/
def jsRead (cells : List Nat) (i : Int) : Option Nat :=
  if 0 ≤ i then cells[i.toNat]? else none

/-- Writing `cells[i] = v` on a typed array: silently ignored out of
bounds (negative index, or index past the end — `List.set` is already a
no-op there). -/
def jsWrite (cells : List Nat) (i : Int) (v : Nat) : List Nat :=
  if 0 ≤ i then cells.set i.toNat v else cells

/-- The values taken by the loop variables `dx` and `dy` in
`countNeighbors` (`for (let d = -1; d <= 1; d++)`). -/
def dRange : List Int := [-1, 0, 1]

/-- `countNeighbors` from the worker (`simulationWorker.ts`): scans the
eight `(dx, dy)` offsets, skipping `(0, 0)`, wraps with
`(x + dx + width) % width` (JS `%` = `Int.tmod`) and counts entries that
read as `1`. -/
def countNeighbors (cells : List Nat) (x y width height : Int) : Nat :=
  dRange.foldl (fun count dy =>
    dRange.foldl (fun count dx =>
      if dx = 0 ∧ dy = 0 then count
      else
        let nx := (x + dx + width).tmod width
        let ny := (y + dy + height).tmod height
        let index := ny * width + nx
        if jsRead cells index = some 1 then count + 1 else count) count) 0

/-- The eight neighbour offsets `(dx, dy)`: every pair over `{-1, 0, 1}`
except `(0, 0)`, in the scan order of `countNeighbors`. -/
def neighborOffsets : List (Int × Int) :=
  [(-1, -1), (0, -1), (1, -1), (-1, 0), (1, 0), (-1, 1), (0, 1), (1, 1)]

/-- The neighbour count as the specification words it: the number of
live cells among the 8 neighbours obtained by wrapping `x ± 1` and
`y ± 1` with the mathematically-correct (non-negative) modulo
(`Int.emod`), the cell's own offset `(0, 0)` excluded. -/
def specNeighborCount (cells : List Nat) (x y width height : Int) : Nat :=
  (neighborOffsets.map (fun d =>
    if jsRead cells ((y + d.2) % height * width + (x + d.1) % width) = some 1
    then 1 else 0)).sum

/-- The per-cell body of the double loop in `simulationStep`: the new
value of the cell at `(x, y)` computed from the input snapshot. -/
def stepCell (currentState : List Nat) (width height : Int) (rule : CellRule)
    (x y : Nat) : Nat :=
  let index : Nat := y * width.toNat + x
  let currentCell := currentState[index]?
  let neighbors := countNeighbors currentState (x : Int) (y : Int) width height
  if currentCell = some 1 then
    if neighbors ∈ rule.survival then 1 else 0
  else
    if neighbors ∈ rule.birth then 1 else 0

/-- `simulationStep` from the worker: allocates a zeroed buffer of the
same length as the input (`new Uint8Array(currentState.length)`), then
for `y` from `0` to `height - 1` and `x` from `0` to `width - 1` writes
`newState[y * width + x]` from the input snapshot only.  The loop bounds
`for (let y = 0; y < height; y++)` are `List.range height.toNat`. -/
def simulationStep (currentState : List Nat) (width height : Int)
    (rule : CellRule) : List Nat :=
  (List.range height.toNat).foldl (fun newState y =>
    (List.range width.toNat).foldl (fun newState x =>
      newState.set (y * width.toNat + x) (stepCell currentState width height rule x y))
      newState) (List.replicate currentState.length 0)

/-- `createInitialGrid` from the worker: `new Uint8Array(width * height)`
zeroed, then each pattern position is wrapped by one addition of the
dimension followed by JS `%` and the resulting index is set to `1`.
For a coordinate below `-width` / `-height` the single wrap leaves a
negative residue, so `index = y * width + x` can address a cell of a
different row (an in-bounds write to the wrong cell) or fall outside
the buffer (a silent no-op on a typed array). -/
def createInitialGrid (width height : Int)
    (initialPattern : Option (List (Int × Int))) : List Nat :=
  let cells := List.replicate (width * height).toNat 0
  match initialPattern with
  | none => cells
  | some pattern =>
      pattern.foldl (fun cells pos =>
        let x := (pos.1 + width).tmod width
        let y := (pos.2 + height).tmod height
        let index := y * width + x
        jsWrite cells index 1) cells

/-- The `GridState` interface from `types.ts`. -/
structure GridState where
  width : Int
  height : Int
  cells : List Nat
deriving DecidableEq, Repr

/-- `toggleCell` from `useSimulation.ts`: computes the flat index
`y * width + x` with no bounds check, copies the buffer, and writes the
flipped value (`newCells[index] === 1 ? 0 : 1`; an out-of-bounds read is
`undefined`, never `=== 1`, and an out-of-bounds write is a no-op). -/
def toggleCell (g : GridState) (x y : Int) : GridState :=
  let index := y * g.width + x
  let v : Nat := if jsRead g.cells index = some 1 then 0 else 1
  { g with cells := jsWrite g.cells index v }

/-- Iterated application of `simulationStep` (n generations). -/
def stepN (cells : List Nat) (width height : Int) (rule : CellRule) : Nat → List Nat
  | 0 => cells
  | n + 1 => stepN (simulationStep cells width height rule) width height rule n

/-! ### Rule parser and formatter (`ruleParser.ts`)

Rule strings are embedded as `List Char`.  JS string primitives used by
the source are embedded one-for-one: `trim` strips whitespace from both
ends, `toUpperCase` maps `Char.toUpper` (the strings at hand are ASCII),
and the anchored regex `^B(\d+)\/S(\d+)$` is realised by its (equivalent,
deterministic) maximal-digit-run matcher: after `B` the `\d+` group must
be the maximal run of digits because the following `/` and the
end-of-string anchor cannot match a digit. -/

/-- JS whitespace characters relevant to `String.prototype.trim`
(ASCII subset; the rule strings at hand contain no exotic whitespace). -/
def isJsSpace (c : Char) : Bool :=
  c = ' ' ∨ c = '\t' ∨ c = '\n' ∨ c = '\r' ∨ c = '\x0b' ∨ c = '\x0c'

/-- `String.prototype.trim`: drop whitespace from both ends. -/
def trimChars (cs : List Char) : List Char :=
  ((cs.dropWhile isJsSpace).reverse.dropWhile isJsSpace).reverse

/-- `Number('7')` on a single digit character: its numeric value. -/
def digitVal (c : Char) : Nat := c.toNat - 48

/-- `parseRuleString` from `ruleParser.ts`: trim, upper-case, match the
anchored regex `^B(\d+)\/S(\d+)$` and split each captured group into its
digits; `none` is the thrown `Invalid rule format` error. -/
def parseRuleString (cs : List Char) : Option CellRule :=
  let trimmed := (trimChars cs).map Char.toUpper
  match trimmed with
  | [] => none
  | b :: rest =>
      if b ≠ 'B' then none else
      let birthDigits := rest.takeWhile Char.isDigit
      let afterBirth := rest.dropWhile Char.isDigit
      if birthDigits = [] then none
      else
        match afterBirth with
        | sep :: s :: rest2 =>
            if sep ≠ '/' ∨ s ≠ 'S' then none else
            let survivalDigits := rest2.takeWhile Char.isDigit
            let afterSurvival := rest2.dropWhile Char.isDigit
            if survivalDigits = [] ∨ afterSurvival ≠ [] then none
            else some ⟨birthDigits.map digitVal, survivalDigits.map digitVal⟩
        | _ => none

/-- The string of a JS number, as a character list (`String(n)`, used by
`Array.prototype.join` and by the default sort comparator). -/
def numChars (n : Nat) : List Char := (Nat.repr n).toList

/-- Lexicographic UTF-16 code-unit comparison of two JS strings
(`a ≤ b`), as performed by the default `Array.prototype.sort`
comparator.  For the ASCII strings at hand, code units are `Char.toNat`. -/
def jsStrLe : List Char → List Char → Bool
  | [], _ => true
  | _ :: _, [] => false
  | a :: as, b :: bs =>
      if a.toNat < b.toNat then true
      else if b.toNat < a.toNat then false
      else jsStrLe as bs

/-- The ordering used by `numbers.sort()` with no comparator: elements
are converted to strings and compared by code units. -/
def jsNumLe (a b : Nat) : Prop := jsStrLe (numChars a) (numChars b) = true

instance : DecidableRel jsNumLe := fun a b =>
  inferInstanceAs (Decidable (jsStrLe (numChars a) (numChars b) = true))

/-- `array.sort()` with the default comparator: a stable sort by string
comparison (embedded with stable insertion sort). -/
def jsSortNums (l : List Nat) : List Nat := List.insertionSort jsNumLe l

/-- `formatRuleString` from `ruleParser.ts`: the template
`` `B${birthStr}/S${survivalStr}` `` where each side is the (in-place)
sorted array joined with `''`. -/
def formatRuleString (rule : CellRule) : List Char :=
  'B' :: ((jsSortNums rule.birth).flatMap numChars
            ++ '/' :: 'S' :: (jsSortNums rule.survival).flatMap numChars)

/-- `formatRuleString` including its side effect: `Array.prototype.sort`
sorts `rule.birth` and `rule.survival` **in place**, so after the call
the caller's rule object holds the sorted arrays.  The embedding passes
state explicitly: second component is the rule object as the caller
observes it after the call returns. -/
def formatRuleStringEff (rule : CellRule) : List Char × CellRule :=
  (formatRuleString rule, ⟨jsSortNums rule.birth, jsSortNums rule.survival⟩)

/-! ### The controller (`useSimulation.ts`)

The hook is modelled two ways, both read directly off the source:

* a small transition system over the `isProcessingRef` flag for the
  backpressure claim (C3): its events are the observable triggers of the
  hook — an animation-frame tick of `stepSimulation`, a manual `step()`
  call, a `SIMULATION_RESULT` message, and a worker `onerror`;
* the literal message types and handlers for the stale-result claim
  (C4): the messages the hook posts carry no sequence number of any
  kind, and `onmessage` installs incoming buffers unconditionally. -/

/-- The controller state for the backpressure model: the
`isProcessingRef` flag, plus a ghost count of requests issued to the
worker whose outcome has not yet been observed. -/
structure ControllerState where
  processing : Bool
  outstanding : Nat
deriving DecidableEq, Repr

/-- Events driving the controller: `tick running elapsed` is one
invocation of `stepSimulation` (with the `config.isRunning` test and the
`timeSinceLastStep >= stepInterval` test abstracted as booleans),
`manualStep` is a `step()` call, `stepResult` the arrival of a
`SIMULATION_RESULT`, `workerError` a worker `onerror`. -/
inductive ControllerEvent where
  | tick (running elapsed : Bool)
  | manualStep
  | stepResult
  | workerError
deriving DecidableEq, Repr

/-- One controller transition, transcribed from `useSimulation.ts`:
`stepSimulation` returns early unless running, not processing and the
step interval has elapsed, and otherwise sets `isProcessingRef` and
posts one `SIMULATION_STEP`; `step()` returns early when processing and
otherwise sets the flag and posts one request; the `SIMULATION_RESULT`
branch of `onmessage` and the `onerror` handler clear the flag. -/
def ctrlStep (s : ControllerState) : ControllerEvent → ControllerState
  | .tick running elapsed =>
      if running ∧ ¬s.processing ∧ elapsed then
        { processing := true, outstanding := s.outstanding + 1 }
      else s
  | .manualStep =>
      if ¬s.processing then
        { processing := true, outstanding := s.outstanding + 1 }
      else s
  | .stepResult => { processing := false, outstanding := s.outstanding - 1 }
  | .workerError => { processing := false, outstanding := s.outstanding - 1 }

/-- Reachable controller states: start with the flag clear and nothing
outstanding; ticks and manual steps are always possible; the worker can
deliver a result or a failure only for a request actually outstanding. -/
inductive Reachable : ControllerState → Prop where
  | init : Reachable ⟨false, 0⟩
  | tick {s} (running elapsed : Bool) :
      Reachable s → Reachable (ctrlStep s (.tick running elapsed))
  | manualStep {s} : Reachable s → Reachable (ctrlStep s .manualStep)
  | stepResult {s} : Reachable s → 1 ≤ s.outstanding →
      Reachable (ctrlStep s .stepResult)
  | workerError {s} : Reachable s → 1 ≤ s.outstanding →
      Reachable (ctrlStep s .workerError)

/-- Messages the hook posts to the worker (`postMessage` payloads in
`useSimulation.ts`).  None of them carries a sequence number. -/
inductive MainToWorker where
  | simulationStepMsg (currentState : List Nat) (width height : Int) (rule : CellRule)
  | initGrid (width height : Int) (initialPattern : Option (List (Int × Int)))
  | updateRule (rule : CellRule)
deriving DecidableEq, Repr

/-- Messages the worker posts back (`simulationWorker.ts`).  None of
them carries a sequence number. -/
inductive WorkerToMain where
  | simulationResult (newState : List Nat)
  | gridInitialized (initialState : List Nat)
  | ruleUpdated (rule : CellRule)
deriving DecidableEq, Repr

/-- The worker's `message` handler: `SIMULATION_STEP` answers with
`simulationStep`, `INIT_GRID` with `createInitialGrid`, `UPDATE_RULE`
acknowledges the rule. -/
def workerRespond : MainToWorker → WorkerToMain
  | .simulationStepMsg currentState width height rule =>
      .simulationResult (simulationStep currentState width height rule)
  | .initGrid width height initialPattern =>
      .gridInitialized (createInitialGrid width height initialPattern)
  | .updateRule rule => .ruleUpdated rule

/-- The grid-owning part of the hook state: the authoritative
`gridState` and the `isProcessingRef` flag. -/
structure HookState where
  grid : GridState
  processing : Bool
deriving DecidableEq, Repr

/-- The hook's `onmessage` handler, transcribed from `useSimulation.ts`:
a `SIMULATION_RESULT` **unconditionally** replaces `gridState.cells`
with the incoming buffer and clears `isProcessingRef`; a
`GRID_INITIALIZED` unconditionally replaces the cells.  There is no
sequence check of any kind. -/
def handleWorkerMessage (s : HookState) : WorkerToMain → HookState
  | .simulationResult newState =>
      { s with grid := { s.grid with cells := newState }, processing := false }
  | .gridInitialized initialState =>
      { s with grid := { s.grid with cells := initialState } }
  | .ruleUpdated _ => s

/-! ### Theorems for the claims -/

set_option maxRecDepth 100000

/-- Inductive invariant of the controller: the in-flight flag tracks
the outstanding-request count, which never exceeds one. -/
lemma reachable_flag_invariant (s : ControllerState) (h : Reachable s) :
    s.outstanding ≤ 1 ∧ (s.processing = true ↔ s.outstanding = 1) := by
  induction h with
  | init => simp
  | @tick t running elapsed h ih =>
      rcases ih with ⟨h1, h2⟩
      by_cases hc : running = true ∧ ¬t.processing = true ∧ elapsed = true
      · have h0 : t.outstanding = 0 := by
          have : t.outstanding ≠ 1 := fun he => hc.2.1 (h2.mpr he)
          omega
        have he : ctrlStep t (.tick running elapsed) = ⟨true, t.outstanding + 1⟩ := by
          simp only [ctrlStep]
          rw [if_pos hc]
        rw [he]
        exact ⟨by simp [h0], by simp [h0]⟩
      · have he : ctrlStep t (.tick running elapsed) = t := by
          simp only [ctrlStep]
          rw [if_neg hc]
        rw [he]
        exact ⟨h1, h2⟩
  | @manualStep t h ih =>
      rcases ih with ⟨h1, h2⟩
      by_cases hp : t.processing = true
      · have he : ctrlStep t .manualStep = t := by
          simp only [ctrlStep]
          rw [if_neg (by simp [hp])]
        rw [he]
        exact ⟨h1, h2⟩
      · have h0 : t.outstanding = 0 := by
          have : t.outstanding ≠ 1 := fun he => hp (h2.mpr he)
          omega
        have he : ctrlStep t .manualStep = ⟨true, t.outstanding + 1⟩ := by
          simp only [ctrlStep]
          rw [if_pos hp]
        rw [he]
        exact ⟨by simp [h0], by simp [h0]⟩
  | @stepResult t h hout ih =>
      rcases ih with ⟨h1, h2⟩
      refine ⟨?_, ?_⟩
      · show t.outstanding - 1 ≤ 1
        omega
      · show (false : Bool) = true ↔ t.outstanding - 1 = 1
        simp
        omega
  | @workerError t h hout ih =>
      rcases ih with ⟨h1, h2⟩
      refine ⟨?_, ?_⟩
      · show t.outstanding - 1 ≤ 1
        omega
      · show (false : Bool) = true ↔ t.outstanding - 1 = 1
        simp
        omega

/-- C3: in every reachable controller state there is at most one
outstanding step request; the `isProcessingRef` flag is set exactly when
a request has been issued whose result or failure has not yet been
observed; and while the flag is set, neither a scheduler tick nor a
manual `step()` call changes the state (in particular neither issues a
request). -/
theorem controller_backpressure (s : ControllerState) (h : Reachable s) :
    s.outstanding ≤ 1 ∧ (s.processing = true ↔ s.outstanding = 1) ∧
      (s.processing = true →
        (∀ running elapsed, ctrlStep s (.tick running elapsed) = s) ∧
          ctrlStep s .manualStep = s) := by
  obtain ⟨h1, h2⟩ := reachable_flag_invariant s h
  refine ⟨h1, h2, fun hp => ⟨fun running elapsed => ?_, ?_⟩⟩
  · simp [ctrlStep, hp]
  · simp [ctrlStep, hp]

/-- Witness for C3 at a concrete reachable state: the state reached by a
manual `step()` from the initial state. -/
theorem controller_backpressure_witness :
    (ctrlStep ⟨false, 0⟩ .manualStep).outstanding ≤ 1 ∧
      ((ctrlStep ⟨false, 0⟩ .manualStep).processing = true ↔
        (ctrlStep ⟨false, 0⟩ .manualStep).outstanding = 1) ∧
      ((ctrlStep ⟨false, 0⟩ .manualStep).processing = true →
        (∀ running elapsed,
          ctrlStep (ctrlStep ⟨false, 0⟩ .manualStep) (.tick running elapsed) =
            ctrlStep ⟨false, 0⟩ .manualStep) ∧
          ctrlStep (ctrlStep ⟨false, 0⟩ .manualStep) .manualStep =
            ctrlStep ⟨false, 0⟩ .manualStep) :=
  controller_backpressure _ (Reachable.manualStep Reachable.init)

/-- C4 (code bug): the hook's messages carry no sequence numbers and
`onmessage` installs any `SIMULATION_RESULT` unconditionally.  Concrete
scenario on a 2×2 grid under B3/S23: a step request on the buffer
`[1,1,0,0]` is outstanding, `reset()` issues an init request, the reset
result `[0,0,0,0]` is installed, and then the delayed stale step result
arrives — the authoritative grid ends as the stale step output
`[1,1,0,0]`, not the reset state. -/
theorem stale_result_overwrites_reset :
    handleWorkerMessage
        (handleWorkerMessage ⟨⟨2, 2, [1, 1, 0, 0]⟩, true⟩
          (workerRespond (.initGrid 2 2 none)))
        (workerRespond (.simulationStepMsg [1, 1, 0, 0] 2 2 ⟨[3], [2, 3]⟩)) =
      ⟨⟨2, 2, [1, 1, 0, 0]⟩, false⟩ ∧
    handleWorkerMessage ⟨⟨2, 2, [1, 1, 0, 0]⟩, true⟩
        (workerRespond (.initGrid 2 2 none)) =
      ⟨⟨2, 2, [0, 0, 0, 0]⟩, true⟩ ∧
    ([1, 1, 0, 0] : List Nat) ≠ [0, 0, 0, 0] := by decide

/-- C5 counterexample: on the 6×6 torus under B3/S23, four generations
from the seed `(1,1),(2,1),(3,1),(3,2),(2,3)` do **not** give that
shape translated by `(+1,+1)`. -/
theorem glider_not_translated_plus_one_plus_one :
    stepN (createInitialGrid 6 6 (some [(1, 1), (2, 1), (3, 1), (3, 2), (2, 3)]))
        6 6 ⟨[3], [2, 3]⟩ 4 ≠
      createInitialGrid 6 6 (some [(2, 2), (3, 2), (4, 2), (4, 3), (3, 4)]) := by
  decide

/-- C5 amended: the seeded shape is a vertically mirrored glider, so
after exactly four generations the live-cell set is the initial set
translated by `(+1, -1)` with coordinates taken modulo 6. -/
theorem glider_translated_plus_one_minus_one :
    stepN (createInitialGrid 6 6 (some [(1, 1), (2, 1), (3, 1), (3, 2), (2, 3)]))
        6 6 ⟨[3], [2, 3]⟩ 4 =
      createInitialGrid 6 6 (some [(2, 0), (3, 0), (4, 0), (4, 1), (3, 2)]) := by
  decide

/-- C7 (code bug): the parser's regex `^B(\d+)\/S(\d+)$` demands at
least one digit on each side, so `"B2/S"` is rejected — yet the
repository's own unit tests assert `parseRuleString('B2/S')` succeeds
with `birth = [2]`, `survival = []`, and `formatRuleString` itself
produces `"B2/S"` for that rule. -/
theorem parse_rejects_empty_survival_side :
    parseRuleString ['B', '2', '/', 'S'] = none ∧
      formatRuleString ⟨[2], []⟩ = ['B', '2', '/', 'S'] := by decide

/-- C6 counterexample: the round-trip fails for the duplicate-free rule
`birth = [2]`, `survival = []` (all digits in 0–8): formatting yields
`"B2/S"`, which the parser rejects. -/
theorem roundtrip_fails_on_empty_side :
    parseRuleString (formatRuleString ⟨[2], []⟩) = none := by decide

/-! Characterising the `simulationStep` write loop: the double loop writes
the flat indices `y * width + x` in strictly increasing order, so it is a
fold of in-place writes over `List.range (width * height)`, which on a
buffer of that length is just a `map` over all indices. -/

lemma foldl_ext_mem {α : Type} {β : Type} (f g : β → α → β) (l : List α)
    (hfg : ∀ a ∈ l, ∀ s, f s a = g s a) : ∀ s, l.foldl f s = l.foldl g s := by
  induction l with
  | nil => intro s; rfl
  | cons a l ih =>
      intro s
      simp only [List.foldl_cons]
      rw [hfg a (by simp)]
      exact ih (fun b hb s => hfg b (by simp [hb]) s) _

lemma foldl_set_range_drop (f : Nat → Nat) :
    ∀ (k : Nat) (l : List Nat), k ≤ l.length →
      (List.range k).foldl (fun st i => st.set i (f i)) l
        = (List.range k).map f ++ l.drop k := by
  intro k
  induction k with
  | zero => intro l _; simp
  | succ k ih =>
      intro l hk
      rw [List.range_succ, List.foldl_append, List.map_append, ih l (by omega)]
      have hklt : k < l.length := by omega
      have hmaplen : ((List.range k).map f).length = k := by simp
      simp only [List.foldl_cons, List.foldl_nil]
      rw [List.set_append, if_neg (by omega), hmaplen]
      rw [List.drop_eq_getElem_cons hklt, Nat.sub_self, List.set_cons_zero,
        List.append_assoc]
      rfl

lemma foldl_set_range (f : Nat → Nat) (l : List Nat) :
    (List.range l.length).foldl (fun st i => st.set i (f i)) l
      = (List.range l.length).map f := by
  rw [foldl_set_range_drop f l.length l (le_refl _)]
  simp

lemma foldl_set_grid (w h : Nat) (g : Nat → Nat → Nat) :
    ∀ (st : List Nat),
      (List.range h).foldl (fun st y =>
        (List.range w).foldl (fun st x => st.set (y * w + x) (g x y)) st) st
        = (List.range (h * w)).foldl (fun st i => st.set i (g (i % w) (i / w))) st := by
  induction h with
  | zero => intro st; simp
  | succ h ih =>
      intro st
      rw [List.range_succ, List.foldl_append, ih st]
      have hr : List.range ((h + 1) * w) = List.range (h * w) ++
          (List.range w).map (fun x => h * w + x) := by
        rw [Nat.succ_mul, List.range_add]
      rw [hr, List.foldl_append, List.foldl_map]
      simp only [List.foldl_cons, List.foldl_nil]
      exact foldl_ext_mem _ _ _ (fun x hx st => by
        have hxw : x < w := List.mem_range.mp hx
        have hw : 0 < w := by omega
        have hmod : (h * w + x) % w = x := by
          rw [Nat.add_comm, Nat.add_mul_mod_self_right, Nat.mod_eq_of_lt hxw]
        have hdiv : (h * w + x) / w = h := by
          rw [Nat.add_comm, Nat.add_mul_div_right _ _ hw, Nat.div_eq_of_lt hxw]
          omega
        rw [hmod, hdiv]) _

lemma simulationStep_eq_map (cells : List Nat) (w h : Nat) (rule : CellRule)
    (hlen : cells.length = w * h) :
    simulationStep cells (w : Int) (h : Int) rule
      = (List.range (w * h)).map
          (fun i => stepCell cells (w : Int) (h : Int) rule (i % w) (i / w)) := by
  unfold simulationStep
  simp only [Int.toNat_ofNat]
  rw [foldl_set_grid w h (fun x y => stepCell cells (w : Int) (h : Int) rule x y)]
  have hinit : (List.replicate cells.length (0 : Nat)).length = h * w := by
    simp [hlen, Nat.mul_comm]
  rw [show h * w = (List.replicate cells.length (0 : Nat)).length from hinit.symm,
    foldl_set_range]
  rw [hinit, Nat.mul_comm h w]

/-- C1: on a snapshot buffer of size `width * height`, `simulationStep`
returns a buffer of the same size in which the cell at flat index
`y * width + x` is live (`1`) iff either the input cell read as live and
its live-neighbour count is a member of `rule.survival`, or it did not
and the count is a member of `rule.birth`; the count and the liveness
test are both evaluated on the unmodified input snapshot (the output is
a pure pointwise function of the input, i.e. a simultaneous update). -/
theorem simulationStep_simultaneous (w h : Nat) (cells : List Nat)
    (rule : CellRule) (x y : Nat) (hlen : cells.length = w * h)
    (hx : x < w) (hy : y < h) :
    (simulationStep cells (w : Int) (h : Int) rule).length = w * h ∧
      (simulationStep cells (w : Int) (h : Int) rule)[y * w + x]? =
        some (if (cells[y * w + x]? = some 1 ∧
                    countNeighbors cells (x : Int) (y : Int) (w : Int) (h : Int) ∈ rule.survival)
                ∨ (cells[y * w + x]? ≠ some 1 ∧
                    countNeighbors cells (x : Int) (y : Int) (w : Int) (h : Int) ∈ rule.birth)
              then 1 else 0) := by
  rw [simulationStep_eq_map cells w h rule hlen]
  have hidx : y * w + x < w * h := by
    calc y * w + x < y * w + w := by omega
    _ = (y + 1) * w := by ring
    _ ≤ h * w := Nat.mul_le_mul_right w (by omega)
    _ = w * h := Nat.mul_comm h w
  constructor
  · simp
  · rw [List.getElem?_map, List.getElem?_range hidx]
    have hmod : (y * w + x) % w = x := by
      rw [Nat.add_comm, Nat.add_mul_mod_self_right, Nat.mod_eq_of_lt hx]
    have hdiv : (y * w + x) / w = y := by
      rw [Nat.add_comm, Nat.add_mul_div_right _ _ (by omega : 0 < w),
        Nat.div_eq_of_lt hx]
      omega
    rw [Option.map_some', hmod, hdiv]
    unfold stepCell
    simp only [Int.toNat_ofNat]
    by_cases h1 : cells[y * w + x]? = some 1 <;>
      by_cases h2 : countNeighbors cells (x : Int) (y : Int) (w : Int) (h : Int) ∈ rule.survival <;>
      by_cases h3 : countNeighbors cells (x : Int) (y : Int) (w : Int) (h : Int) ∈ rule.birth <;>
      simp [h1, h2, h3]

/-- Witness for C1: a vertical blinker on a 3×3 torus, evaluated at the
centre cell. -/
theorem simulationStep_simultaneous_witness :
    (simulationStep [0, 1, 0, 0, 1, 0, 0, 1, 0] (3 : Int) (3 : Int) ⟨[3], [2, 3]⟩).length = 3 * 3 ∧
      (simulationStep [0, 1, 0, 0, 1, 0, 0, 1, 0] (3 : Int) (3 : Int) ⟨[3], [2, 3]⟩)[1 * 3 + 1]? =
        some (if (([0, 1, 0, 0, 1, 0, 0, 1, 0] : List Nat)[1 * 3 + 1]? = some 1 ∧
                    countNeighbors [0, 1, 0, 0, 1, 0, 0, 1, 0] (1 : Int) (1 : Int) (3 : Int) (3 : Int) ∈ [2, 3])
                ∨ (([0, 1, 0, 0, 1, 0, 0, 1, 0] : List Nat)[1 * 3 + 1]? ≠ some 1 ∧
                    countNeighbors [0, 1, 0, 0, 1, 0, 0, 1, 0] (1 : Int) (1 : Int) (3 : Int) (3 : Int) ∈ [3])
              then 1 else 0) :=
  simulationStep_simultaneous 3 3 [0, 1, 0, 0, 1, 0, 0, 1, 0] ⟨[3], [2, 3]⟩ 1 1
    (by decide) (by decide) (by decide)

/-! ### C2: the neighbour count against the spec-side toroidal count -/

lemma wrap_shift (a d w : Int) (hw : 0 < w) (ha : 0 ≤ a) (hd : -1 ≤ d) :
    (a + d + w).tmod w = (a + d) % w := by
  rw [Int.tmod_eq_emod (by omega) (by omega)]
  have h1 : a + d + w = a + d + w * 1 := by ring
  rw [h1, Int.add_mul_emod_self_left]

lemma foldl_indicator {α : Type} (P : α → Prop) [DecidablePred P] :
    ∀ (l : List α) (n : Nat),
      l.foldl (fun c a => if P a then c + 1 else c) n
        = n + (l.map (fun a => if P a then 1 else 0)).sum := by
  intro l
  induction l with
  | nil => intro n; simp
  | cons a l ih =>
      intro n
      simp only [List.foldl_cons, List.map_cons, List.sum_cons]
      by_cases h : P a
      · rw [if_pos h, if_pos h, ih]
        omega
      · rw [if_neg h, if_neg h, ih]
        omega

lemma foldl_add_fn {α : Type} (g : α → Nat) :
    ∀ (l : List α) (n : Nat),
      l.foldl (fun c a => c + g a) n = n + (l.map g).sum := by
  intro l
  induction l with
  | nil => intro n; simp
  | cons a l ih =>
      intro n
      simp only [List.foldl_cons, List.map_cons, List.sum_cons]
      rw [ih]
      omega

lemma countNeighbors_eq_sum (cells : List Nat) (x y w h : Int) :
    countNeighbors cells x y w h
      = (dRange.map (fun dy => (dRange.map (fun dx =>
          if ¬(dx = 0 ∧ dy = 0) ∧
              jsRead cells ((y + dy + h).tmod h * w + (x + dx + w).tmod w) = some 1
          then 1 else 0)).sum)).sum := by
  unfold countNeighbors
  rw [foldl_ext_mem _ (fun count dy => count + (dRange.map (fun dx =>
        if ¬(dx = 0 ∧ dy = 0) ∧
            jsRead cells ((y + dy + h).tmod h * w + (x + dx + w).tmod w) = some 1
        then 1 else 0)).sum) dRange ?hbody 0]
  · rw [foldl_add_fn]
    omega
  case hbody =>
    intro dy _ n
    rw [foldl_ext_mem _ (fun count dx =>
        if ¬(dx = 0 ∧ dy = 0) ∧
            jsRead cells ((y + dy + h).tmod h * w + (x + dx + w).tmod w) = some 1
        then count + 1 else count) dRange ?hstep n]
    · exact foldl_indicator _ dRange n
    case hstep =>
      intro dx _ c
      by_cases h1 : dx = 0 ∧ dy = 0
      · simp [h1]
      · simp only [h1, if_neg h1]
        by_cases h2 : jsRead cells ((y + dy + h).tmod h * w + (x + dx + w).tmod w) = some 1
        · simp [h1, h2]
        · simp [h1, h2]

lemma countNeighbors_eq_spec (cells : List Nat) (w h x y : Int)
    (hw : 0 < w) (hh : 0 < h) (hx0 : 0 ≤ x) (hy0 : 0 ≤ y) :
    countNeighbors cells x y w h = specNeighborCount cells x y w h := by
  have w1 := wrap_shift x (-1) w hw hx0 (by omega)
  have w2 := wrap_shift x 0 w hw hx0 (by omega)
  have w3 := wrap_shift x 1 w hw hx0 (by omega)
  have w4 := wrap_shift y (-1) h hh hy0 (by omega)
  have w5 := wrap_shift y 0 h hh hy0 (by omega)
  have w6 := wrap_shift y 1 h hh hy0 (by omega)
  simp only [add_zero] at w2 w5
  rw [countNeighbors_eq_sum]
  simp [dRange, specNeighborCount, neighborOffsets, w1, w2, w3, w4, w5, w6]
  omega

lemma emod_shift_ne (a d m : Int) (h0 : 0 ≤ a) (hm : a < m) (h2 : 2 ≤ m)
    (hd : d = -1 ∨ d = 1) : (a + d) % m ≠ a := by
  intro hEq
  have ha : a % m = a := Int.emod_eq_of_lt h0 hm
  have h3 : (a + d - a) % m = 0 :=
    Int.emod_eq_emod_iff_emod_sub_eq_zero.mp (by rw [hEq, ha])
  have h4 : d % m = 0 := by simpa using h3
  have h5 : m ∣ d := Int.dvd_of_emod_eq_zero h4
  rcases hd with rfl | rfl
  · have h6 : m ∣ 1 := dvd_neg.mp h5
    have := Int.le_of_dvd (by omega) h6
    omega
  · have := Int.le_of_dvd (by omega) h5
    omega

lemma row_major_ne (w nx ny x y : Int) (hnx0 : 0 ≤ nx) (hnxw : nx < w)
    (hx0 : 0 ≤ x) (hxw : x < w) (hne : nx ≠ x ∨ ny ≠ y) :
    ny * w + nx ≠ y * w + x := by
  intro hEq
  have h1 : (nx + w * ny) % w = nx % w := Int.add_mul_emod_self_left nx w ny
  have h2 : (x + w * y) % w = x % w := Int.add_mul_emod_self_left x w y
  have h3 : nx + w * ny = x + w * y := by linarith
  have h4 : nx % w = x % w := by rw [← h1, ← h2, h3]
  have h5 : nx = x := by
    rwa [Int.emod_eq_of_lt hnx0 hnxw, Int.emod_eq_of_lt hx0 hxw] at h4
  have hw0 : w ≠ 0 := by omega
  have h6 : ny = y := by
    have h7 : w * ny = w * y := by linarith
    exact mul_left_cancel₀ hw0 h7
  tauto

lemma read_set_ne_offset (cells : List Nat) (v : Nat) (w h x y dx dy : Int)
    (hw : 2 ≤ w) (hh : 2 ≤ h) (hx0 : 0 ≤ x) (hxw : x < w)
    (hy0 : 0 ≤ y) (hyh : y < h)
    (hdx : dx = -1 ∨ dx = 0 ∨ dx = 1) (hdy : dy = -1 ∨ dy = 0 ∨ dy = 1)
    (hnz : ¬(dx = 0 ∧ dy = 0)) :
    jsRead (cells.set ((y * w + x).toNat) v)
        ((y + dy) % h * w + (x + dx) % w)
      = jsRead cells ((y + dy) % h * w + (x + dx) % w) := by
  have hne_main : (x + dx) % w ≠ x ∨ (y + dy) % h ≠ y := by
    rcases hdx with rfl | rfl | rfl
    · exact Or.inl (emod_shift_ne x (-1) w hx0 hxw hw (Or.inl rfl))
    · rcases hdy with rfl | rfl | rfl
      · exact Or.inr (emod_shift_ne y (-1) h hy0 hyh hh (Or.inl rfl))
      · exact absurd ⟨rfl, rfl⟩ hnz
      · exact Or.inr (emod_shift_ne y 1 h hy0 hyh hh (Or.inr rfl))
    · exact Or.inl (emod_shift_ne x 1 w hx0 hxw hw (Or.inr rfl))
  have hnx0 : 0 ≤ (x + dx) % w := Int.emod_nonneg _ (by omega)
  have hnxw : (x + dx) % w < w := Int.emod_lt_of_pos _ (by omega)
  have hny0 : 0 ≤ (y + dy) % h := Int.emod_nonneg _ (by omega)
  have hidx_ne : (y + dy) % h * w + (x + dx) % w ≠ y * w + x :=
    row_major_ne w _ _ x y hnx0 hnxw hx0 hxw hne_main
  have hpos : 0 ≤ (y + dy) % h * w + (x + dx) % w :=
    add_nonneg (mul_nonneg hny0 (by omega)) hnx0
  have hpos' : 0 ≤ y * w + x := add_nonneg (mul_nonneg hy0 (by omega)) hx0
  unfold jsRead
  rw [if_pos hpos, if_pos hpos]
  exact List.getElem?_set_ne (by omega)

lemma neg_one_emod_pos (w : Int) (hw : 0 < w) : (-1 : Int) % w = w - 1 := by
  have h1 : (-1 : Int) = w - 1 + w * (-1) := by ring
  rw [h1, Int.add_mul_emod_self_left, Int.emod_eq_of_lt (by omega) (by omega)]

/-- C2: for a positive grid and in-range `(x, y)`, `countNeighbors`
equals the specification count — the number of live cells among the 8
neighbour positions obtained by wrapping `x + dx` and `y + dy` with the
mathematically-correct modulo, the centre offset `(0, 0)` excluded;
moreover (for grids at least 2 wide and 2 tall, where no wrapped
neighbour position aliases the cell itself) the count is independent of
the value stored at `(x, y)`; and on any positive grid the cell at
`(0, 0)` does count the cell at `(W-1, H-1)` — the grid whose only live
cell is the last index yields a positive count at the origin. -/
theorem countNeighbors_toroidal (cells : List Nat) (v : Nat) (w h x y : Int)
    (hw : 0 < w) (hh : 0 < h) (hx0 : 0 ≤ x) (hxw : x < w)
    (hy0 : 0 ≤ y) (hyh : y < h) :
    countNeighbors cells x y w h = specNeighborCount cells x y w h ∧
      (2 ≤ w → 2 ≤ h →
        countNeighbors (cells.set ((y * w + x).toNat) v) x y w h
          = countNeighbors cells x y w h) ∧
      1 ≤ countNeighbors
          ((List.replicate (w * h).toNat 0).set ((w * h).toNat - 1) 1) 0 0 w h := by
  refine ⟨countNeighbors_eq_spec cells w h x y hw hh hx0 hy0, ?_, ?_⟩
  · intro hw2 hh2
    rw [countNeighbors_eq_spec _ w h x y hw hh hx0 hy0,
      countNeighbors_eq_spec cells w h x y hw hh hx0 hy0]
    unfold specNeighborCount
    refine congrArg List.sum (List.map_congr_left ?_)
    intro d hd
    fin_cases hd <;>
      (dsimp only;
       rw [read_set_ne_offset cells v w h x y _ _ hw2 hh2 hx0 hxw hy0 hyh
         (by decide) (by decide) (by decide)])
  · rw [countNeighbors_eq_spec _ w h 0 0 hw hh (by omega) (by omega)]
    have hprod : 0 < w * h := mul_pos hw hh
    have hidx : (h - 1) * w + (w - 1) = w * h - 1 := by ring
    have hread : jsRead ((List.replicate (w * h).toNat 0).set ((w * h).toNat - 1) 1)
        (-1 % h * w + -1 % w) = some 1 := by
      rw [neg_one_emod_pos w hw, neg_one_emod_pos h hh]
      unfold jsRead
      rw [if_pos (by omega)]
      have e2 : ((h - 1) * w + (w - 1)).toNat = (w * h).toNat - 1 := by omega
      rw [e2]
      exact List.getElem?_set_self (by simp; omega)
    simp [specNeighborCount, neighborOffsets, hread]

/-- Witness for C2 on a 3×3 grid at the centre cell, with the corner
cells `(0,0)` and `(2,2)` live. -/
theorem countNeighbors_toroidal_witness :
    countNeighbors [1, 0, 0, 0, 0, 0, 0, 0, 1] 1 1 3 3
        = specNeighborCount [1, 0, 0, 0, 0, 0, 0, 0, 1] 1 1 3 3 ∧
      countNeighbors ([1, 0, 0, 0, 0, 0, 0, 0, 1].set ((((1 : Int)) * 3 + 1).toNat) 1) 1 1 3 3
        = countNeighbors [1, 0, 0, 0, 0, 0, 0, 0, 1] 1 1 3 3 ∧
      1 ≤ countNeighbors
          ((List.replicate (((3 : Int)) * 3).toNat 0).set ((((3 : Int)) * 3).toNat - 1) 1) 0 0 3 3 :=
  ⟨(countNeighbors_toroidal [1, 0, 0, 0, 0, 0, 0, 0, 1] 1 3 3 1 1
      (by decide) (by decide) (by decide) (by decide) (by decide) (by decide)).1,
   (countNeighbors_toroidal [1, 0, 0, 0, 0, 0, 0, 0, 1] 1 3 3 1 1
      (by decide) (by decide) (by decide) (by decide) (by decide) (by decide)).2.1
      (by decide) (by decide),
   (countNeighbors_toroidal [1, 0, 0, 0, 0, 0, 0, 0, 1] 1 3 3 1 1
      (by decide) (by decide) (by decide) (by decide) (by decide) (by decide)).2.2⟩

/-! ### C8: grid creation -/

lemma jsWrite_length (cells : List Nat) (i : Int) (v : Nat) :
    (jsWrite cells i v).length = cells.length := by
  unfold jsWrite
  split <;> simp

lemma foldl_write_length {α : Type} (idx : α → Int) :
    ∀ (l : List α) (init : List Nat),
      (l.foldl (fun cells p => jsWrite cells (idx p) 1) init).length = init.length := by
  intro l
  induction l with
  | nil => intro init; rfl
  | cons a l ih =>
      intro init
      simp only [List.foldl_cons]
      rw [ih, jsWrite_length]

lemma foldl_write_ones {α : Type} (idx : α → Int) :
    ∀ (l : List α) (init : List Nat) (i : Nat), i < init.length →
      (l.foldl (fun cells p => jsWrite cells (idx p) 1) init)[i]?
        = if ∃ p ∈ l, 0 ≤ idx p ∧ (idx p).toNat = i then some 1 else init[i]? := by
  intro l
  induction l with
  | nil =>
      intro init i hi
      simp
  | cons a l ih =>
      intro init i hi
      simp only [List.foldl_cons]
      rw [ih (jsWrite init (idx a) 1) i (by rw [jsWrite_length]; exact hi)]
      by_cases hl : ∃ p ∈ l, 0 ≤ idx p ∧ (idx p).toNat = i
      · rw [if_pos hl, if_pos (by
          rcases hl with ⟨p, hp, h1, h2⟩
          exact ⟨p, List.mem_cons_of_mem a hp, h1, h2⟩)]
      · rw [if_neg hl]
        by_cases ha : 0 ≤ idx a ∧ (idx a).toNat = i
        · rw [if_pos ⟨a, List.mem_cons_self a l, ha.1, ha.2⟩]
          unfold jsWrite
          rw [if_pos ha.1, ha.2]
          exact List.getElem?_set_self hi
        · rw [if_neg (by
            intro hc
            rcases hc with ⟨p, hp, h1, h2⟩
            rcases List.mem_cons.mp hp with rfl | hp'
            · exact ha ⟨h1, h2⟩
            · exact hl ⟨p, hp', h1, h2⟩)]
          unfold jsWrite
          split
          · apply List.getElem?_set_ne
            intro he
            exact ha ⟨by assumption, he⟩
          · rfl

lemma wrap_once (a w : Int) (hw : 0 < w) (ha : 0 ≤ a + w) :
    (a + w).tmod w = a % w := by
  rw [Int.tmod_eq_emod ha (by omega)]
  have h1 : a + w = a + w * 1 := by ring
  rw [h1, Int.add_mul_emod_self_left]

/-- C8 counterexample, refuting both halves of the claim.  First,
`createInitialGrid` performs no dimension validation: called with
`width = 0` it does not fail with `InvalidDimensions` (nor any error) —
it returns the empty buffer.  Second, a negative coordinate is not
always wrapped into range: for the position `(-7, 2)` on a 5×5 grid the
single `+ width` wrap leaves `nx = (-7 + 5) % 5 = -2`, so the code
writes the in-bounds flat index `2 * 5 + (-2) = 8` — cell `(3, 1)` —
while the true toroidal target `(-7 mod 5, 2) = (3, 2)`, flat index 13,
stays dead. -/
theorem createInitialGrid_no_dimension_check :
    (createInitialGrid 0 5 none = [] ∧ createInitialGrid 0 5 (some [(0, 0)]) = []) ∧
      (createInitialGrid 5 5 (some [(-7, 2)]))[8]? = some 1 ∧
      (createInitialGrid 5 5 (some [(-7, 2)]))[13]? = some 0 ∧
      (-7 : Int) % 5 = 3 ∧ ((2 : Int) % 5) * 5 + (-7 : Int) % 5 = 13 := by
  decide

/-- C8 amended: grid creation does not validate dimensions (see the
counterexample), and a coordinate below `-width` / `-height` is not
wrapped into range — it can set a different cell live, as the
counterexample shows.  For positive dimensions and positions whose
coordinates are all at least `-width` / `-height` (the range in which
the code's single `+ dimension` wrap lands in range), creation returns
a buffer of length `width * height` in which exactly the toroidally
wrapped cells of the given positions are live and every other cell is
`0`. -/
theorem createInitialGrid_behavior (w h : Int) (pattern : List (Int × Int)) (i : Nat)
    (hw : 0 < w) (hh : 0 < h)
    (hpat : ∀ p ∈ pattern, -w ≤ p.1 ∧ -h ≤ p.2)
    (hi : i < (w * h).toNat) :
    (createInitialGrid w h (some pattern)).length = (w * h).toNat ∧
      (createInitialGrid w h (some pattern))[i]?
        = some (if ∃ p ∈ pattern, ((p.2 % h) * w + (p.1 % w)).toNat = i then 1 else 0) := by
  simp only [createInitialGrid]
  constructor
  · rw [foldl_write_length (fun pos : Int × Int =>
      (pos.2 + h).tmod h * w + (pos.1 + w).tmod w) pattern]
    simp
  · rw [foldl_write_ones (fun pos : Int × Int =>
      (pos.2 + h).tmod h * w + (pos.1 + w).tmod w) pattern _ i (by simpa using hi)]
    rw [List.getElem?_replicate, if_pos hi]
    have hcond : (∃ p ∈ pattern,
        0 ≤ (p.2 + h).tmod h * w + (p.1 + w).tmod w ∧
          ((p.2 + h).tmod h * w + (p.1 + w).tmod w).toNat = i)
        ↔ (∃ p ∈ pattern, ((p.2 % h) * w + (p.1 % w)).toNat = i) := by
      constructor
      · rintro ⟨p, hp, hnn, hidx⟩
        refine ⟨p, hp, ?_⟩
        rw [wrap_once p.1 w hw (by have := hpat p hp; omega),
          wrap_once p.2 h hh (by have := hpat p hp; omega)] at hidx
        exact hidx
      · rintro ⟨p, hp, hidx⟩
        refine ⟨p, hp, ?_, ?_⟩ <;>
          rw [wrap_once p.1 w hw (by have := hpat p hp; omega),
            wrap_once p.2 h hh (by have := hpat p hp; omega)]
        · have hx0 : 0 ≤ p.1 % w := Int.emod_nonneg _ (by omega)
          have hy0 : 0 ≤ p.2 % h := Int.emod_nonneg _ (by omega)
          exact add_nonneg (mul_nonneg hy0 (by omega)) hx0
        · exact hidx
    rw [if_congr hcond rfl rfl]
    split <;> rfl

/-- Witness for C8: a 2×2 grid seeded at `(-1, -1)`, which wraps to
`(1, 1)`, flat index 3. -/
theorem createInitialGrid_behavior_witness :
    (createInitialGrid 2 2 (some [(-1, -1)])).length = ((2 : Int) * 2).toNat ∧
      (createInitialGrid 2 2 (some [(-1, -1)]))[3]? = some 1 := by
  have hb := createInitialGrid_behavior 2 2 [(-1, -1)] 3 (by decide) (by decide)
    (by decide) (by decide)
  exact ⟨hb.1, hb.2.trans (by decide)⟩

/-! ### C9: toggleCell -/

lemma set_of_get (l : List Nat) (i : Nat) (v : Nat) (h : l[i]? = some v) :
    l.set i v = l := by
  apply List.ext_getElem?
  intro n
  by_cases hn : i = n
  · subst hn
    rw [List.getElem?_set_self (by
      rcases List.getElem?_eq_some_iff.mp h with ⟨hlt, -⟩
      exact hlt)]
    exact h.symm
  · rw [List.getElem?_set_ne hn]

/-- C9 counterexample: out-of-range coordinates are **not** always a
no-op: on a 2×2 grid, `toggleCell(2, 0)` computes flat index
`0 * 2 + 2 = 2`, which is inside the buffer, and toggles the cell at
`(0, 1)` — a different cell — instead of leaving the grid unchanged. -/
theorem toggleCell_out_of_range_not_noop :
    toggleCell ⟨2, 2, [0, 0, 0, 0]⟩ 2 0 = ⟨2, 2, [0, 0, 1, 0]⟩ ∧
      ([0, 0, 1, 0] : List Nat) ≠ [0, 0, 0, 0] := by decide

/-- C9 amended: `toggleCell` operates on the unchecked flat index
`y * width + x`: if that index lies inside the buffer it flips exactly
that cell (for out-of-range `x` this can be a cell of another row) and
leaves every other cell unchanged; if the flat index falls outside the
buffer the grid is unchanged (and no error is raised); and for a grid
whose cells are all `0`/`1`, applying `toggleCell` twice with the same
arguments restores the original grid. -/
theorem toggleCell_behavior (g : GridState) (x y : Int) (j : Nat)
    (hvals : ∀ c ∈ g.cells, c = 0 ∨ c = 1) :
    (0 ≤ y * g.width + x → (y * g.width + x).toNat < g.cells.length →
        (toggleCell g x y).cells[(y * g.width + x).toNat]?
          = some (if g.cells[(y * g.width + x).toNat]? = some 1 then 0 else 1)
      ∧ (j ≠ (y * g.width + x).toNat →
          (toggleCell g x y).cells[j]? = g.cells[j]?)) ∧
    (¬(0 ≤ y * g.width + x ∧ (y * g.width + x).toNat < g.cells.length) →
        (toggleCell g x y).cells = g.cells) ∧
    (toggleCell g x y).width = g.width ∧
    (toggleCell g x y).height = g.height ∧
    toggleCell (toggleCell g x y) x y = g := by
  obtain ⟨gw, gh, gc⟩ := g
  simp only [toggleCell, jsRead, jsWrite] at hvals ⊢
  refine ⟨?_, ?_, trivial, trivial, ?_⟩
  · intro h0 hlt
    rw [if_pos h0, if_pos h0]
    constructor
    · exact List.getElem?_set_self hlt
    · intro hj
      exact List.getElem?_set_ne (fun he => hj he.symm)
  · intro hn
    by_cases h0 : 0 ≤ y * gw + x
    · rw [if_pos h0]
      have hge : gc.length ≤ (y * gw + x).toNat := by omega
      rw [List.set_eq_of_length_le hge]
    · rw [if_neg h0]
  · by_cases h0 : 0 ≤ y * gw + x
    · by_cases hlt : (y * gw + x).toNat < gc.length
      · simp only [if_pos h0]
        obtain ⟨cv, hcv⟩ : ∃ cv, gc[(y * gw + x).toNat]? = some cv :=
          ⟨gc[(y * gw + x).toNat], List.getElem?_eq_getElem hlt⟩
        have hmem : cv ∈ gc := by
          rcases List.getElem?_eq_some_iff.mp hcv with ⟨hlt2, hEq⟩
          exact hEq ▸ List.getElem_mem hlt2
        have hcv01 := hvals cv hmem
        rw [hcv, List.getElem?_set_self hlt, List.set_set]
        rcases hcv01 with rfl | rfl
        · norm_num
          exact set_of_get gc _ _ hcv
        · norm_num
          exact set_of_get gc _ _ hcv
      · simp only [if_pos h0]
        have hge : gc.length ≤ (y * gw + x).toNat := by omega
        rw [List.set_eq_of_length_le hge, List.set_eq_of_length_le hge]
    · simp only [if_neg h0]

/-- Witness for C9: toggling the live cell `(1, 0)` of a 2×2 grid kills
exactly that cell, leaves cell 3 alone, and toggling twice restores the
grid. -/
theorem toggleCell_behavior_witness :
    (toggleCell ⟨2, 2, [0, 1, 0, 0]⟩ 1 0).cells[1]?
        = some (if ([0, 1, 0, 0] : List Nat)[1]? = some 1 then 0 else 1) ∧
      (toggleCell ⟨2, 2, [0, 1, 0, 0]⟩ 1 0).cells[3]? = ([0, 1, 0, 0] : List Nat)[3]? ∧
      toggleCell (toggleCell ⟨2, 2, [0, 1, 0, 0]⟩ 1 0) 1 0 = ⟨2, 2, [0, 1, 0, 0]⟩ := by
  have hb := toggleCell_behavior ⟨2, 2, [0, 1, 0, 0]⟩ 1 0 3 (by decide)
  exact ⟨(hb.1 (by decide) (by decide)).1, (hb.1 (by decide) (by decide)).2 (by decide),
    hb.2.2.2.2⟩

/-! ### C10: the in-place sort performed by formatRuleString -/

lemma jsNumLe_digits : ∀ a < 10, ∀ b < 10, (jsNumLe a b ↔ a ≤ b) := by decide

lemma orderedInsert_congr {α : Type} {r s : α → α → Prop}
    [DecidableRel r] [DecidableRel s] (a : α) (l : List α)
    (h : ∀ b ∈ l, r a b ↔ s a b) :
    l.orderedInsert r a = l.orderedInsert s a := by
  induction l with
  | nil => rfl
  | cons b l ih =>
      simp only [List.orderedInsert]
      by_cases hr : r a b
      · rw [if_pos hr, if_pos ((h b (by simp)).mp hr)]
      · rw [if_neg hr, if_neg (fun hs2 => hr ((h b (by simp)).mpr hs2)),
          ih (fun c hc => h c (by simp [hc]))]

lemma insertionSort_congr {α : Type} {r s : α → α → Prop}
    [DecidableRel r] [DecidableRel s] (l : List α)
    (h : ∀ a ∈ l, ∀ b ∈ l, r a b ↔ s a b) :
    List.insertionSort r l = List.insertionSort s l := by
  induction l with
  | nil => rfl
  | cons a l ih =>
      simp only [List.insertionSort]
      rw [ih (fun c hc d hd => h c (by simp [hc]) d (by simp [hd])),
        orderedInsert_congr a _ (fun b hb => h a (by simp)
          b (by simp [(List.perm_insertionSort s l).mem_iff.mp hb]))]

lemma jsSortNums_digits (l : List Nat) (h : ∀ d ∈ l, d < 10) :
    jsSortNums l = List.insertionSort (· ≤ ·) l :=
  insertionSort_congr l (fun a ha b hb => jsNumLe_digits a (h a ha) b (h b hb))

/-- C10: `formatRuleString` mutates its argument — `Array.prototype.sort`
sorts `rule.birth` and `rule.survival` in place before joining them.  In
the state-passing embedding: after the call the caller's rule object
holds, on each side, an ascending-sorted permutation of the original
array (for digit entries the default JS string comparator coincides with
numeric order), and the original element order is lost — at the concrete
rule `birth = [3,1]`, `survival = [2]` the post-call rule differs from
the pre-call rule. -/
theorem formatRuleString_mutates (r : CellRule)
    (hb : ∀ d ∈ r.birth, d < 10) (hs : ∀ d ∈ r.survival, d < 10) :
    ((formatRuleStringEff r).2.birth.Sorted (· ≤ ·) ∧
        (formatRuleStringEff r).2.birth.Perm r.birth ∧
        (formatRuleStringEff r).2.survival.Sorted (· ≤ ·) ∧
        (formatRuleStringEff r).2.survival.Perm r.survival) ∧
      (formatRuleStringEff ⟨[3, 1], [2]⟩).2 ≠ ⟨[3, 1], [2]⟩ := by
  constructor
  · dsimp only [formatRuleStringEff]
    rw [jsSortNums_digits r.birth hb, jsSortNums_digits r.survival hs]
    exact ⟨List.sorted_insertionSort _ r.birth, List.perm_insertionSort _ r.birth,
      List.sorted_insertionSort _ r.survival, List.perm_insertionSort _ r.survival⟩
  · decide

/-- Witness for C10 at the rule `birth = [3,1]`, `survival = [2]`. -/
theorem formatRuleString_mutates_witness :
    ((formatRuleStringEff ⟨[3, 1], [2]⟩).2.birth.Sorted (· ≤ ·) ∧
        (formatRuleStringEff ⟨[3, 1], [2]⟩).2.birth.Perm [3, 1] ∧
        (formatRuleStringEff ⟨[3, 1], [2]⟩).2.survival.Sorted (· ≤ ·) ∧
        (formatRuleStringEff ⟨[3, 1], [2]⟩).2.survival.Perm [2]) ∧
      (formatRuleStringEff ⟨[3, 1], [2]⟩).2 ≠ ⟨[3, 1], [2]⟩ :=
  formatRuleString_mutates ⟨[3, 1], [2]⟩ (by decide) (by decide)

/-! ### C6: the parse/format round-trip -/

lemma numChars_digit : ∀ d < 10, numChars d = [Char.ofNat (48 + d)] := by decide

lemma digitChar_facts : ∀ d < 10,
    (Char.ofNat (48 + d)).isDigit = true ∧
    Char.toUpper (Char.ofNat (48 + d)) = Char.ofNat (48 + d) ∧
    isJsSpace (Char.ofNat (48 + d)) = false ∧
    digitVal (Char.ofNat (48 + d)) = d := by decide

lemma flatMap_digits (l : List Nat) (h : ∀ d ∈ l, d < 10) :
    l.flatMap numChars = l.map (fun d => Char.ofNat (48 + d)) := by
  induction l with
  | nil => rfl
  | cons a l ih =>
      rw [List.flatMap_cons, List.map_cons, numChars_digit a (h a (by simp)),
        ih (fun d hd => h d (by simp [hd]))]
      rfl

lemma dropWhile_all_false {p : Char → Bool} (cs : List Char)
    (h : ∀ c ∈ cs, p c = false) : cs.dropWhile p = cs := by
  cases cs with
  | nil => rfl
  | cons a l => rw [List.dropWhile_cons, if_neg (by simp [h a (by simp)])]

lemma trim_all_nonspace (cs : List Char) (h : ∀ c ∈ cs, isJsSpace c = false) :
    trimChars cs = cs := by
  unfold trimChars
  rw [dropWhile_all_false cs h,
    dropWhile_all_false cs.reverse (fun c hc => h c (List.mem_reverse.mp hc)),
    List.reverse_reverse]

lemma takeWhile_all_append {p : Char → Bool} (as : List Char)
    (ha : ∀ a ∈ as, p a = true) (b : Char) (hb : p b = false) (bs : List Char) :
    (as ++ b :: bs).takeWhile p = as ∧ (as ++ b :: bs).dropWhile p = b :: bs := by
  induction as with
  | nil =>
      constructor
      · rw [List.nil_append, List.takeWhile_cons, if_neg (by simp [hb])]
      · rw [List.nil_append, List.dropWhile_cons, if_neg (by simp [hb])]
  | cons a as ih =>
      have ih2 := ih (fun c hc => ha c (by simp [hc]))
      constructor
      · rw [List.cons_append, List.takeWhile_cons, if_pos (by simp [ha a (by simp)]),
          ih2.1]
      · rw [List.cons_append, List.dropWhile_cons, if_pos (by simp [ha a (by simp)]),
          ih2.2]

lemma takeWhile_all {p : Char → Bool} (as : List Char)
    (ha : ∀ a ∈ as, p a = true) :
    as.takeWhile p = as ∧ as.dropWhile p = [] := by
  induction as with
  | nil => exact ⟨rfl, rfl⟩
  | cons a as ih =>
      have ih2 := ih (fun c hc => ha c (by simp [hc]))
      constructor
      · rw [List.takeWhile_cons, if_pos (by simp [ha a (by simp)]), ih2.1]
      · rw [List.dropWhile_cons, if_pos (by simp [ha a (by simp)]), ih2.2]

/-- C6 amended: for every rule whose sides hold only digits 0–8 with no
duplicates and are both **nonempty**, `parseRuleString ∘ formatRuleString`
succeeds, returning exactly the sorted sides, which are permutations of
the originals — the same sets of birth and survival digits. -/
theorem parse_format_roundtrip (r : CellRule)
    (hb8 : ∀ d ∈ r.birth, d ≤ 8) (hs8 : ∀ d ∈ r.survival, d ≤ 8)
    (hbnd : r.birth.Nodup) (hsnd : r.survival.Nodup)
    (hbne : r.birth ≠ []) (hsne : r.survival ≠ []) :
    parseRuleString (formatRuleString r)
        = some ⟨jsSortNums r.birth, jsSortNums r.survival⟩ ∧
      (∀ d, d ∈ jsSortNums r.birth ↔ d ∈ r.birth) ∧
      (∀ d, d ∈ jsSortNums r.survival ↔ d ∈ r.survival) := by
  have hbperm : (jsSortNums r.birth).Perm r.birth := List.perm_insertionSort _ _
  have hsperm : (jsSortNums r.survival).Perm r.survival := List.perm_insertionSort _ _
  refine ⟨?_, fun d => hbperm.mem_iff, fun d => hsperm.mem_iff⟩
  have hb10 : ∀ d ∈ jsSortNums r.birth, d < 10 := fun d hd => by
    have := hb8 d (hbperm.mem_iff.mp hd); omega
  have hs10 : ∀ d ∈ jsSortNums r.survival, d < 10 := fun d hd => by
    have := hs8 d (hsperm.mem_iff.mp hd); omega
  have hsbne : jsSortNums r.birth ≠ [] := by
    intro hnil
    apply hbne
    have hlen := hbperm.length_eq
    rw [hnil] at hlen
    exact List.length_eq_zero.mp hlen.symm
  have hssne : jsSortNums r.survival ≠ [] := by
    intro hnil
    apply hsne
    have hlen := hsperm.length_eq
    rw [hnil] at hlen
    exact List.length_eq_zero.mp hlen.symm
  set bcs := (jsSortNums r.birth).map (fun d => Char.ofNat (48 + d)) with hbcs
  set scs := (jsSortNums r.survival).map (fun d => Char.ofNat (48 + d)) with hscs
  have hbdig : ∀ c ∈ bcs, c.isDigit = true := by
    intro c hc
    rw [hbcs] at hc
    rcases List.mem_map.mp hc with ⟨d, hd, rfl⟩
    exact (digitChar_facts d (hb10 d hd)).1
  have hsdig : ∀ c ∈ scs, c.isDigit = true := by
    intro c hc
    rw [hscs] at hc
    rcases List.mem_map.mp hc with ⟨d, hd, rfl⟩
    exact (digitChar_facts d (hs10 d hd)).1
  have hfmt : formatRuleString r = 'B' :: (bcs ++ '/' :: 'S' :: scs) := by
    unfold formatRuleString
    rw [flatMap_digits _ hb10, flatMap_digits _ hs10]
  have hmem : ∀ c ∈ 'B' :: (bcs ++ '/' :: 'S' :: scs),
      c = 'B' ∨ c ∈ bcs ∨ c = '/' ∨ c = 'S' ∨ c ∈ scs := by
    intro c hc
    rcases List.mem_cons.mp hc with rfl | hc2
    · exact Or.inl rfl
    rcases List.mem_append.mp hc2 with hcb | hc3
    · exact Or.inr (Or.inl hcb)
    rcases List.mem_cons.mp hc3 with rfl | hc4
    · exact Or.inr (Or.inr (Or.inl rfl))
    rcases List.mem_cons.mp hc4 with rfl | hc5
    · exact Or.inr (Or.inr (Or.inr (Or.inl rfl)))
    · exact Or.inr (Or.inr (Or.inr (Or.inr hc5)))
  have hnospace : ∀ c ∈ 'B' :: (bcs ++ '/' :: 'S' :: scs), isJsSpace c = false := by
    intro c hc
    rcases hmem c hc with rfl | hcb | rfl | rfl | hcs
    · decide
    · rw [hbcs] at hcb
      rcases List.mem_map.mp hcb with ⟨d, hd, rfl⟩
      exact (digitChar_facts d (hb10 d hd)).2.2.1
    · decide
    · decide
    · rw [hscs] at hcs
      rcases List.mem_map.mp hcs with ⟨d, hd, rfl⟩
      exact (digitChar_facts d (hs10 d hd)).2.2.1
  have hupfix : ∀ c ∈ 'B' :: (bcs ++ '/' :: 'S' :: scs), Char.toUpper c = c := by
    intro c hc
    rcases hmem c hc with rfl | hcb | rfl | rfl | hcs
    · decide
    · rw [hbcs] at hcb
      rcases List.mem_map.mp hcb with ⟨d, hd, rfl⟩
      exact (digitChar_facts d (hb10 d hd)).2.1
    · decide
    · decide
    · rw [hscs] at hcs
      rcases List.mem_map.mp hcs with ⟨d, hd, rfl⟩
      exact (digitChar_facts d (hs10 d hd)).2.1
  have hbcsne : bcs ≠ [] := by
    rw [hbcs]
    intro hnil
    exact hsbne (List.map_eq_nil_iff.mp hnil)
  have hscsne : scs ≠ [] := by
    rw [hscs]
    intro hnil
    exact hssne (List.map_eq_nil_iff.mp hnil)
  rw [hfmt]
  unfold parseRuleString
  rw [trim_all_nonspace _ hnospace]
  rw [show ('B' :: (bcs ++ '/' :: 'S' :: scs)).map Char.toUpper
      = 'B' :: (bcs ++ '/' :: 'S' :: scs) from by
    rw [List.map_congr_left hupfix]; simp]
  simp only []
  rw [if_neg (by simp)]
  obtain ⟨htake, hdrop⟩ := takeWhile_all_append bcs hbdig '/' (by decide) ('S' :: scs)
  rw [htake, hdrop, if_neg hbcsne]
  simp only []
  rw [if_neg (by simp)]
  obtain ⟨htake2, hdrop2⟩ := takeWhile_all scs hsdig
  rw [htake2, hdrop2]
  rw [if_neg (by simp [hscsne])]
  have hback : ∀ (l : List Nat), (∀ d ∈ l, d < 10) →
      (l.map (fun d => Char.ofNat (48 + d))).map digitVal = l := by
    intro l hl
    rw [List.map_map]
    have hpt : ∀ d ∈ l, (digitVal ∘ fun d => Char.ofNat (48 + d)) d = id d := by
      intro d hd
      exact (digitChar_facts d (hl d hd)).2.2.2
    rw [List.map_congr_left hpt]
    simp
  rw [hbcs, hscs, hback _ hb10, hback _ hs10]

/-- Witness for C6 at the Conway rule `B3/S23`. -/
theorem parse_format_roundtrip_witness :
    parseRuleString (formatRuleString ⟨[3], [2, 3]⟩)
        = some ⟨jsSortNums [3], jsSortNums [2, 3]⟩ ∧
      (2 ∈ jsSortNums [2, 3] ↔ 2 ∈ ([2, 3] : List Nat)) := by
  have hr := parse_format_roundtrip ⟨[3], [2, 3]⟩ (by decide) (by decide)
    (by decide) (by decide) (by decide) (by decide)
  exact ⟨hr.1, hr.2.2 2⟩
